import Mathlib

/-!
Verification of the Markdown → Typst converter (`src/main.rs`).

The program is embedded shallowly:

* Rust `&str` values handled by `split_frontmatter` are modelled as
  `List Char`.  Every pattern the Rust code searches for (`"---\n"`,
  `"---\r\n"`, `"\n---"`, `'\n'`, `"\r\n"`) is pure ASCII, and in UTF-8 an
  ASCII byte never occurs inside the encoding of a multi-byte character, so
  byte-level `starts_with` / `find` / slicing at the byte indices the code
  uses coincide exactly with the character-level operations modelled here.
* The output sink (`BufWriter<StdoutLock>`) is modelled as a `String`
  accumulator threaded through the emitters; Rust `write!`/`writeln!`
  become `write`/`writeln` below.
* The external Markdown parser (`pulldown_cmark`) is an external
  collaborator: `render_body` is modelled as a fold over the event stream
  the parser would produce, with the event type `MdEvent` mirroring the
  `pulldown_cmark::Event`/`Tag`/`TagEnd` variants the `match` in
  `render_body` distinguishes.
* The external YAML decoder (`serde_yaml::from_str`) is an external
  collaborator and is a parameter of `decodeFrontmatter`; failure
  (`expect`, i.e. fatal process termination) is modelled as `Option.none`.
* The external JSON accessors (`serde_json::Value::get` / `as_str`) are
  modelled on a minimal JSON value type.
-/

/-! ## Frontmatter splitter (`split_frontmatter`, src/main.rs lines 72–97) -/

/-- Rust `str::starts_with(pat)`: `pat` is a prefix of `s`. -/
def startsWith : List Char → List Char → Bool
  | [], _ => true
  | _ :: _, [] => false
  | p :: ps, c :: cs => p == c && startsWith ps cs

/-- Rust `str::find(pat)`: index of the first occurrence of `pat` in `s`,
`none` if there is no occurrence. -/
def findSub (pat : List Char) : List Char → Option Nat
  | [] => if pat.isEmpty then some 0 else none
  | c :: cs =>
    if startsWith pat (c :: cs) then some 0
    else (findSub pat cs).map (fun i => i + 1)

/-- The opening delimiter line with a LF line ending, `"---\n"`. -/
def openLf : List Char := ['-', '-', '-', '\n']

/-- The opening delimiter line with a CRLF line ending, `"---\r\n"`. -/
def openCrLf : List Char := ['-', '-', '-', '\r', '\n']

/-- The closing marker searched for in the remainder, `"\n---"`. -/
def closeMark : List Char := ['\n', '-', '-', '-']

/-- Lines 86–92 of `split_frontmatter`: strip one leading line ending
(`\n` or `\r\n`) from the text after the closing marker. -/
def stripLeadingNewline (after : List Char) : List Char :=
  if startsWith ['\n'] after then after.drop 1
  else if startsWith ['\r', '\n'] after then after.drop 2
  else after

/-- Function `split_frontmatter` (src/main.rs lines 72–97): separates YAML
frontmatter (between `---` delimiters) from the body. -/
def split_frontmatter (input : List Char) : List Char × List Char :=
  if !startsWith openLf input && !startsWith openCrLf input then
    ([], input)
  else
    let rest := if startsWith openCrLf input then input.drop 5 else input.drop 4
    match findSub closeMark rest with
    | some idx =>
      let fm := rest.take idx
      let after := rest.drop (idx + 4)
      (fm, stripLeadingNewline after)
    | none => ([], input)

/-! ### Basic lemmas about `startsWith` and `findSub` -/

theorem startsWith_iff (p s : List Char) :
    startsWith p s = true ↔ ∃ t, s = p ++ t := by
  induction p generalizing s with
  | nil => simp [startsWith]
  | cons a ps ih =>
    cases s with
    | nil => simp [startsWith]
    | cons c cs =>
      simp only [startsWith, Bool.and_eq_true, beq_iff_eq, ih, List.cons_append,
        List.cons.injEq]
      constructor
      · rintro ⟨rfl, t, rfl⟩; exact ⟨t, rfl, rfl⟩
      · rintro ⟨t, rfl, rfl⟩; exact ⟨rfl, t, rfl⟩

theorem startsWith_length {p s : List Char} (h : startsWith p s = true) :
    p.length ≤ s.length := by
  obtain ⟨t, rfl⟩ := (startsWith_iff p s).mp h
  simp

theorem findSub_some_startsWith {pat l : List Char} {i : Nat}
    (h : findSub pat l = some i) : startsWith pat (l.drop i) = true := by
  induction l generalizing i with
  | nil =>
    simp only [findSub] at h
    split at h
    · cases h
      cases pat with
      | nil => rfl
      | cons a ps => simp [List.isEmpty] at *
    · cases h
  | cons c cs ih =>
    simp only [findSub] at h
    split at h
    · cases h
      simpa using by assumption
    · cases hfind : findSub pat cs with
      | none => rw [hfind] at h; cases h
      | some j =>
        rw [hfind] at h
        simp only [Option.map_some'] at h
        cases h
        simpa using ih hfind

theorem findSub_some_exists {pat l : List Char} {i : Nat}
    (h : findSub pat l = some i) : ∃ a b, l = a ++ pat ++ b := by
  have hs := findSub_some_startsWith h
  obtain ⟨t, ht⟩ := (startsWith_iff _ _).mp hs
  exact ⟨l.take i, t, by rw [List.append_assoc, ← ht, List.take_append_drop]⟩

theorem findSub_eq_none {pat l : List Char}
    (h : ∀ a b, l ≠ a ++ pat ++ b) : findSub pat l = none := by
  cases hf : findSub pat l with
  | none => rfl
  | some i =>
    obtain ⟨a, b, hab⟩ := findSub_some_exists hf
    exact absurd hab (h a b)

theorem startsWith_self_append (p x : List Char) :
    startsWith p (p ++ x) = true :=
  (startsWith_iff p (p ++ x)).mpr ⟨x, rfl⟩

/-! ### Bounds-checked splitter

Rust string slicing `&s[i..]` / `&s[..i]` panics when `i` is out of bounds
(or not a character boundary; the boundary condition is automatic here, see
the header comment).  `split_frontmatter_checked` performs exactly the same
computation as `split_frontmatter` but models each slice as a guarded
operation returning `none` where Rust would panic, so proving it always
returns `some` shows every slice taken by the Rust code is in bounds. -/

/-- Rust `&s[i..]` with its bounds check made explicit. -/
def sliceFrom (s : List Char) (i : Nat) : Option (List Char) :=
  if i ≤ s.length then some (s.drop i) else none

/-- Rust `&s[..i]` with its bounds check made explicit. -/
def sliceTo (s : List Char) (i : Nat) : Option (List Char) :=
  if i ≤ s.length then some (s.take i) else none

/-- Variant of `split_frontmatter` with every Rust slice replaced by its
bounds-checked counterpart; `none` marks a slice Rust would panic on. -/
def split_frontmatter_checked (input : List Char) :
    Option (List Char × List Char) :=
  if !startsWith openLf input && !startsWith openCrLf input then
    some ([], input)
  else do
    let rest ← if startsWith openCrLf input then sliceFrom input 5
               else sliceFrom input 4
    match findSub closeMark rest with
    | some idx => do
      let fm ← sliceTo rest idx
      let after ← sliceFrom rest (idx + 4)
      let body ← if startsWith ['\n'] after then sliceFrom after 1
                 else if startsWith ['\r', '\n'] after then sliceFrom after 2
                 else some after
      some (fm, body)
    | none => some ([], input)

/-! ## Frontmatter decoder dispatch (src/main.rs lines 26–30 and 56–60) -/

/-- The `Frontmatter` struct: a single recognized field `title`,
defaulting to the empty string (`derive(Default)`). -/
structure Frontmatter where
  title : String
deriving Repr, DecidableEq

/-- Model of `Frontmatter::default()`. -/
def Frontmatter.default : Frontmatter := ⟨""⟩

/-- Lines 56–60 of `main`: empty frontmatter text yields the default
metadata without calling the YAML decoder; otherwise the external decoder
(`serde_yaml::from_str`, the parameter `yamlDecode`) is called, and its
failure — Rust `expect`, which terminates the process — is `none`. -/
def decodeFrontmatter (yamlDecode : List Char → Option Frontmatter)
    (fm : List Char) : Option Frontmatter :=
  if fm.isEmpty then some Frontmatter.default else yamlDecode fm

/-! ## Page-setup emitter (`write_page_setup`, src/main.rs lines 100–118) -/

/-- Rust `write!(w, s)`: append `s` to the sink. -/
def write (w : String) (s : String) : String := w ++ s

/-- Rust `writeln!(w, s)`: append `s` and a line break to the sink. -/
def writeln (w : String) (s : String) : String := w ++ s ++ "\n"

/-- Function `write_page_setup` (src/main.rs lines 100–118): the Typst page setup
directives, then — only for a non-empty title — the title binding and the
centered heading block. -/
def write_page_setup (w : String) (meta : Frontmatter) : String :=
  let w := writeln w "#set page(paper: \"a4\")"
  let w := writeln w "#set text(font: \"SimSun\", size: 12pt, lang: \"zh\")"
  let w := writeln w "#set par(leading: 1.5em, first-line-indent: 2em)"
  let w := writeln w ""
  if !meta.title.isEmpty then
    let w := writeln w ("#let title = \"" ++ meta.title ++ "\"")
    let w := writeln w ""
    let w := writeln w
      ("#align(center, text(size: 22pt, weight: \"bold\")[" ++ meta.title ++ "])")
    let w := writeln w "#v(1em)"
    writeln w ""
  else
    w

/-! ## Event transcoder (`render_body`, src/main.rs lines 121–205)

`pulldown_cmark` is an external collaborator; `render_body` is modelled on
the stream of events it produces.  `MdEvent` mirrors the
`Event`/`Tag`/`TagEnd` variants: the first eighteen constructors are the
ones the `match` in `render_body` names, the rest are the
`pulldown_cmark` variants that fall to the catch-all `_ => {}` arm. -/

/-- Model of `pulldown_cmark::HeadingLevel`. -/
inductive HeadingLevel where
  | h1 | h2 | h3 | h4 | h5 | h6
deriving Repr, DecidableEq

/-- Function `heading_level_to_u8` (src/main.rs lines 196–205). -/
def heading_level_to_u8 : HeadingLevel → Nat
  | .h1 => 1
  | .h2 => 2
  | .h3 => 3
  | .h4 => 4
  | .h5 => 5
  | .h6 => 6

/-- The Markdown event stream alphabet. -/
inductive MdEvent where
  | startHeading (level : HeadingLevel)
  | endHeading
  | startParagraph
  | endParagraph
  | text (s : String)
  | softBreak
  | startList
  | endList
  | startItem
  | endItem
  | startEmphasis
  | endEmphasis
  | startStrong
  | endStrong
  | rule
  | code (s : String)
  | startCodeBlock
  | endCodeBlock
  | hardBreak
  | html (s : String)
  | inlineHtml (s : String)
  | footnoteReference (s : String)
  | taskListMarker (checked : Bool)
  | startBlockQuote
  | endBlockQuote
  | startStrikethrough
  | endStrikethrough
  | startLink (dest : String)
  | endLink
  | startImage (dest : String)
  | endImage
  | startTable
  | endTable
  | startFootnoteDefinition (s : String)
  | endFootnoteDefinition
  | startHtmlBlock
  | endHtmlBlock
  | startMetadataBlock
  | endMetadataBlock
  | inlineMath (s : String)
  | displayMath (s : String)
deriving Repr, DecidableEq

/-- The body of the `for event in parser { match event { … } }` loop in
`render_body`: the markup each single event appends to the sink. -/
def renderEvent (w : String) : MdEvent → String
  | .startHeading level =>
    write w ("#heading(level: " ++ toString (heading_level_to_u8 level) ++ ")[")
  | .endHeading => writeln (writeln w "]") ""
  | .startParagraph => w
  | .endParagraph => writeln (writeln w "") ""
  | .text s => write w s
  | .softBreak => writeln w ""
  | .startList => w
  | .endList => writeln w ""
  | .startItem => write w "- "
  | .endItem => writeln w ""
  | .startEmphasis => write w "#emph["
  | .endEmphasis => write w "]"
  | .startStrong => write w "#strong["
  | .endStrong => write w "]"
  | .rule => writeln (writeln w "#line(length: 100%)") ""
  | .code s => write w ("#raw(\"" ++ s ++ "\")")
  | .startCodeBlock => write w "```\n"
  | .endCodeBlock => writeln (writeln w "```") ""
  | _ => w

/-- Function `render_body` (src/main.rs lines 121–194) with the external parser
replaced by the event stream it yields: a single forward fold of
`renderEvent` over the events. -/
def render_body (w : String) (events : List MdEvent) : String :=
  events.foldl renderEvent w

/-- The events the `match` in `render_body` names; everything else falls
to the `_ => {}` arm (the mapping table's "any other event" row). -/
def handledEvent : MdEvent → Bool
  | .startHeading _ | .endHeading | .startParagraph | .endParagraph
  | .text _ | .softBreak | .startList | .endList | .startItem | .endItem
  | .startEmphasis | .endEmphasis | .startStrong | .endStrong
  | .rule | .code _ | .startCodeBlock | .endCodeBlock => true
  | _ => false

/-! ## `--version` handling (src/main.rs lines 39–45)

`serde_json` is an external collaborator; the minimal JSON value model
below carries exactly what `Value::get` and `Value::as_str` inspect. -/

/-- A JSON value (`serde_json::Value`). -/
inductive Json where
  | str (s : String)
  | num (n : Int)
  | bool (b : Bool)
  | null
  | arr (xs : List Json)
  | obj (fields : List (String × Json))

/-- First field of an object with the given key. -/
def lookupField (k : String) : List (String × Json) → Option Json
  | [] => none
  | (k', v) :: rest => if k' = k then some v else lookupField k rest

/-- Model of `serde_json::Value::get(key)`: field lookup on objects, `none` on
every other value. -/
def Json.get : Json → String → Option Json
  | .obj fs, k => lookupField k fs
  | _, _ => none

/-- Model of `serde_json::Value::as_str`: the string content of a string value. -/
def Json.asStr : Json → Option String
  | .str s => some s
  | _ => none

/-- Lines 39–45 of `main` (`--version`), as a function of the parsed
manifest: `if let Some(v) = manifest.get("version")` prints
`v.as_str().unwrap_or("unknown")` with `println!` (so with a trailing
line break); when the field is absent nothing is printed. -/
def version_output (manifest : Json) : String :=
  match manifest.get "version" with
  | some v => v.asStr.getD "unknown" ++ "\n"
  | none => ""

/-! ## Further splitter lemmas -/

theorem startsWith_eq_false_iff (p s : List Char) :
    startsWith p s = false ↔ ∀ t, s ≠ p ++ t := by
  constructor
  · intro h t ht
    have := (startsWith_iff p s).mpr ⟨t, ht⟩
    simp [h] at this
  · intro h
    cases he : startsWith p s
    · rfl
    · obtain ⟨t, ht⟩ := (startsWith_iff _ _).mp he
      exact absurd ht (h t)

theorem startsWith_openCrLf_of_openLf (x : List Char) :
    startsWith openCrLf (openLf ++ x) = false := rfl

theorem startsWith_openLf_of_openCrLf (x : List Char) :
    startsWith openLf (openCrLf ++ x) = false := rfl

/-! ## Claim theorems -/

/-- Claim C3: For every input that does not literally begin with `---`
followed immediately by a line ending (`\n` or `\r\n`), `split_frontmatter`
returns empty frontmatter and the full, unchanged input as body
(src/main.rs lines 73–75). -/
theorem split_frontmatter_no_opening_delimiter (input : List Char)
    (h1 : ∀ t, input ≠ openLf ++ t) (h2 : ∀ t, input ≠ openCrLf ++ t) :
    split_frontmatter input = ([], input) := by
  have e1 : startsWith openLf input = false := (startsWith_eq_false_iff _ _).mpr h1
  have e2 : startsWith openCrLf input = false := (startsWith_eq_false_iff _ _).mpr h2
  simp [split_frontmatter, e1, e2]

/-- Witness for C3 at the concrete input `"hello"`. -/
theorem split_frontmatter_no_opening_delimiter_witness :
    split_frontmatter "hello".toList = ([], "hello".toList) :=
  split_frontmatter_no_opening_delimiter "hello".toList
    ((startsWith_eq_false_iff _ _).mp (by decide))
    ((startsWith_eq_false_iff _ _).mp (by decide))

/-- Claim C4: For every input that begins with an opening `---` delimiter
line but whose remainder contains no closing marker (no line ending
immediately followed by `---`), `split_frontmatter` returns empty
frontmatter and the entire original input — opening delimiter line
included — as body; the function returns normally, so the missing closer
is a fallback, not an error (src/main.rs lines 83, 94–96). -/
theorem split_frontmatter_unclosed (input rest : List Char)
    (hopen : input = openLf ++ rest ∨ input = openCrLf ++ rest)
    (hno : ∀ a b, rest ≠ a ++ closeMark ++ b) :
    split_frontmatter input = ([], input) := by
  have hfind : findSub closeMark rest = none := findSub_eq_none hno
  rcases hopen with rfl | rfl
  · have h1 : startsWith openLf (openLf ++ rest) = true := startsWith_self_append _ _
    have h2 := startsWith_openCrLf_of_openLf rest
    have hdrop : (openLf ++ rest).drop 4 = rest := rfl
    simp [split_frontmatter, h1, h2, hdrop, hfind]
  · have h2 : startsWith openCrLf (openCrLf ++ rest) = true := startsWith_self_append _ _
    have hdrop : (openCrLf ++ rest).drop 5 = rest := rfl
    simp [split_frontmatter, h2, hdrop, hfind]

/-- Witness for C4 at the concrete input `"---\nabc"`. -/
theorem split_frontmatter_unclosed_witness :
    split_frontmatter "---\nabc".toList = ([], "---\nabc".toList) :=
  split_frontmatter_unclosed "---\nabc".toList "abc".toList (Or.inl rfl)
    (by
      intro a b hab
      have := congrArg List.length hab
      simp [closeMark] at this
      omega)

/-- Claim C5: Frontmatter decoding fails — fatally, `none` in the model —
iff the frontmatter text is non-empty and the structured-format decoder
rejects it; empty frontmatter text yields the default metadata
(`title = ""`) for every decoder, i.e. without invoking it
(src/main.rs lines 56–60). -/
theorem decodeFrontmatter_fail_iff (d : List Char → Option Frontmatter)
    (fm : List Char) :
    (decodeFrontmatter d fm = none ↔ fm ≠ [] ∧ d fm = none)
    ∧ decodeFrontmatter d [] = some Frontmatter.default := by
  refine ⟨?_, rfl⟩
  by_cases hfm : fm = []
  · subst hfm
    simp [decodeFrontmatter]
  · simp [decodeFrontmatter, hfm]

/-- Claim C7: Any event sequence consisting solely of event types outside
the transcoder's mapping table (the `_ => {}` arm of `render_body`)
appends nothing to the sink (src/main.rs lines 124–193). -/
theorem render_body_unhandled_noop (w : String) (events : List MdEvent)
    (h : ∀ e ∈ events, handledEvent e = false) :
    render_body w events = w := by
  induction events generalizing w with
  | nil => rfl
  | cons e es ih =>
    have he : handledEvent e = false := h e (by simp)
    have ht : ∀ x ∈ es, handledEvent x = false := fun x hx => h x (by simp [hx])
    have hone : renderEvent w e = w := by
      clear ih h ht
      cases e <;> first
        | rfl
        | simp [handledEvent] at he
    show render_body (renderEvent w e) es = w
    rw [hone]
    exact ih w ht

/-- Witness for C7 on a concrete all-unrecognized event sequence. -/
theorem render_body_unhandled_noop_witness :
    (∀ e ∈ [MdEvent.hardBreak, MdEvent.inlineHtml "<b>",
        MdEvent.taskListMarker true, MdEvent.startBlockQuote],
      handledEvent e = false)
    ∧ render_body "abc" [MdEvent.hardBreak, MdEvent.inlineHtml "<b>",
        MdEvent.taskListMarker true, MdEvent.startBlockQuote] = "abc" :=
  ⟨by decide, render_body_unhandled_noop "abc" _ (by decide)⟩

/-- Claim C8: Transcoding the event sequence of a code block containing
`x = 1` produces exactly an opening fence, a line break, the literal text
`x = 1` unchanged, a closing fence, and a blank line
(src/main.rs lines 141–143 and 183–189). -/
theorem render_body_code_block :
    render_body ""
        [MdEvent.startCodeBlock, MdEvent.text "x = 1", MdEvent.endCodeBlock]
      = "```" ++ "\n" ++ "x = 1" ++ "```" ++ "\n" ++ "\n" := by decide

/-- Claim C1, counterexample: A manifest without a `version` field: the
program prints nothing, not the claimed `"unknown"` plus line break
(src/main.rs lines 39–45, the `if let` has no `else`). -/
theorem version_flag_absent_field_counterexample :
    (Json.obj [("name", Json.str "presto-template-starter")]).get "version"
        = none
    ∧ version_output (Json.obj [("name", Json.str "presto-template-starter")])
        ≠ "unknown" ++ "\n" :=
  ⟨rfl, by decide⟩

/-- Claim C1, amended: Under `--version`: a `version` field holding a string
is printed with a trailing line break; a `version` field holding a
non-string prints the fallback `"unknown"` with a line break; an absent
`version` field prints nothing at all. -/
theorem version_flag_output_spec :
    (∀ m s, Json.get m "version" = some (Json.str s) →
      version_output m = s ++ "\n")
    ∧ (∀ m v, Json.get m "version" = some v → Json.asStr v = none →
      version_output m = "unknown" ++ "\n")
    ∧ (∀ m, Json.get m "version" = none → version_output m = "") := by
  refine ⟨fun m s h => ?_, fun m v h hv => ?_, fun m h => ?_⟩
  · simp [version_output, h, Json.asStr]
  · simp [version_output, h, hv]
  · simp [version_output, h]

/-- Claim C2: For input made of the opening delimiter line (`---` plus a
line ending), then frontmatter text, then the closing marker `\n---`
(the first occurrence the search finds, per `hfirst`), then the tail:
the returned frontmatter is exactly the text between the opening
delimiter line and the closing marker, and the returned body is the tail
after the marker's 4 matched characters with one leading line ending
stripped (src/main.rs lines 77–93). -/
theorem split_frontmatter_found_closer (nl fm after : List Char)
    (hnl : nl = ['\n'] ∨ nl = ['\r', '\n'])
    (hfirst : findSub closeMark (fm ++ closeMark ++ after) = some fm.length) :
    split_frontmatter (['-', '-', '-'] ++ nl ++ (fm ++ closeMark ++ after))
      = (fm, stripLeadingNewline after) := by
  have hfirst' : findSub closeMark (fm ++ (closeMark ++ after)) = some fm.length := by
    rw [← List.append_assoc]; exact hfirst
  have htake : List.take fm.length (fm ++ (closeMark ++ after)) = fm :=
    List.take_left fm _
  have hdrop : List.drop (fm.length + 4) (fm ++ (closeMark ++ after)) = after := by
    rw [← List.append_assoc]
    exact List.drop_left' (by simp [closeMark])
  rcases hnl with rfl | rfl
  · have heq : ['-', '-', '-'] ++ ['\n'] ++ (fm ++ closeMark ++ after)
        = openLf ++ (fm ++ (closeMark ++ after)) := by
      simp [openLf]
    rw [heq]
    have h1 : startsWith openLf (openLf ++ (fm ++ (closeMark ++ after))) = true :=
      startsWith_self_append _ _
    have h2 := startsWith_openCrLf_of_openLf (fm ++ (closeMark ++ after))
    have hd : List.drop 4 (openLf ++ (fm ++ (closeMark ++ after)))
        = fm ++ (closeMark ++ after) := rfl
    simp [split_frontmatter, h1, h2, hd, hfirst', htake, hdrop]
  · have heq : ['-', '-', '-'] ++ ['\r', '\n'] ++ (fm ++ closeMark ++ after)
        = openCrLf ++ (fm ++ (closeMark ++ after)) := by
      simp [openCrLf]
    rw [heq]
    have h2 : startsWith openCrLf (openCrLf ++ (fm ++ (closeMark ++ after))) = true :=
      startsWith_self_append _ _
    have hd : List.drop 5 (openCrLf ++ (fm ++ (closeMark ++ after)))
        = fm ++ (closeMark ++ after) := rfl
    simp [split_frontmatter, h2, hd, hfirst', htake, hdrop]

/-- Witness for C2: the spec's concrete example
`"---\ntitle: X\n---\nbody"` splits into frontmatter `"title: X"` and
body `"body"`. -/
theorem split_frontmatter_found_closer_witness :
    split_frontmatter "---\ntitle: X\n---\nbody".toList
      = ("title: X".toList, "body".toList) :=
  split_frontmatter_found_closer ['\n'] "title: X".toList "\nbody".toList
    (Or.inl rfl) (by decide)

/-- Claim C6: The page-setup emitter unconditionally appends, in order, the
page-size directive, the text-style directive, the paragraph-style
directive and a blank line; then, exactly when the title is non-empty, a
variable binding carrying the title, a blank line, a centered bold
22pt block carrying the title, vertical spacing, and a blank line
(src/main.rs lines 100–118). -/
theorem write_page_setup_output (w : String) (meta : Frontmatter) :
    write_page_setup w meta =
      w ++ ("#set page(paper: \"a4\")" ++ "\n")
        ++ ("#set text(font: \"SimSun\", size: 12pt, lang: \"zh\")" ++ "\n")
        ++ ("#set par(leading: 1.5em, first-line-indent: 2em)" ++ "\n")
        ++ "\n"
        ++ (if meta.title = "" then ""
            else ("#let title = \"" ++ meta.title ++ "\"" ++ "\n")
              ++ "\n"
              ++ ("#align(center, text(size: 22pt, weight: \"bold\")["
                    ++ meta.title ++ "])" ++ "\n")
              ++ ("#v(1em)" ++ "\n")
              ++ "\n") := by
  by_cases h : meta.title = ""
  · have he : String.isEmpty "" = true := rfl
    simp [write_page_setup, writeln, h, he, String.append_assoc]
  · have hb : meta.title.isEmpty = false := by
      cases hc : meta.title.isEmpty
      · rfl
      · exact absurd ((String.isEmpty_iff _).mp hc) h
    simp [write_page_setup, writeln, hb, h, String.append_assoc]

theorem opener_cases {input : List Char}
    (hcond : ¬((!startsWith openLf input && !startsWith openCrLf input) = true)) :
    startsWith openLf input = true ∨ startsWith openCrLf input = true := by
  cases ha : startsWith openLf input
  · cases hb : startsWith openCrLf input
    · exact absurd (by rw [ha, hb]; rfl) hcond
    · exact Or.inr rfl
  · exact Or.inl rfl

theorem findSub_some_bound {rest : List Char} {idx : Nat}
    (hf : findSub closeMark rest = some idx) : idx + 4 ≤ rest.length := by
  obtain ⟨t, ht⟩ := (startsWith_iff _ _).mp (findSub_some_startsWith hf)
  have h1 := List.length_drop idx rest
  rw [ht] at h1
  simp [closeMark] at h1
  omega

theorem findSub_decomp {rest : List Char} {idx : Nat}
    (hf : findSub closeMark rest = some idx) :
    rest = rest.take idx ++ (closeMark ++ rest.drop (idx + 4)) := by
  obtain ⟨t, ht⟩ := (startsWith_iff _ _).mp (findSub_some_startsWith hf)
  have h2 : rest.drop (idx + 4) = t := by
    have h3 : (rest.drop idx).drop 4 = rest.drop (idx + 4) := List.drop_drop 4 idx rest
    rw [← h3, ht]
    rfl
  calc rest = rest.take idx ++ rest.drop idx := (List.take_append_drop idx rest).symm
    _ = rest.take idx ++ (closeMark ++ rest.drop (idx + 4)) := by rw [ht, h2]

theorem stripLeadingNewline_decomp (after : List Char) :
    ∃ pre, after = pre ++ stripLeadingNewline after := by
  unfold stripLeadingNewline
  by_cases hn : startsWith ['\n'] after = true
  · obtain ⟨t, ht⟩ := (startsWith_iff _ _).mp hn
    refine ⟨['\n'], ?_⟩
    rw [if_pos hn, ht]
    rfl
  · by_cases hrn : startsWith ['\r', '\n'] after = true
    · obtain ⟨t, ht⟩ := (startsWith_iff _ _).mp hrn
      refine ⟨['\r', '\n'], ?_⟩
      rw [if_neg hn, if_pos hrn, ht]
      rfl
    · exact ⟨[], by rw [if_neg hn, if_neg hrn]; rfl⟩

theorem checked_found_closer (rest : List Char) (idx : Nat)
    (hf : findSub closeMark rest = some idx) :
    (do
      let fm ← sliceTo rest idx
      let after ← sliceFrom rest (idx + 4)
      let body ← if startsWith ['\n'] after then sliceFrom after 1
                 else if startsWith ['\r', '\n'] after then sliceFrom after 2
                 else some after
      some (fm, body) : Option (List Char × List Char))
    = some (rest.take idx, stripLeadingNewline (rest.drop (idx + 4))) := by
  have hlen : idx + 4 ≤ rest.length := findSub_some_bound hf
  have hidx : idx ≤ rest.length := by omega
  have h1 : sliceTo rest idx = some (rest.take idx) := by simp [sliceTo, hidx]
  have h2 : sliceFrom rest (idx + 4) = some (rest.drop (idx + 4)) := by
    simp [sliceFrom, hlen]
  rw [h1, h2]
  simp only [Option.bind_eq_bind, Option.some_bind]
  unfold stripLeadingNewline
  by_cases hn : startsWith ['\n'] (rest.drop (idx + 4)) = true
  · have hl1 : 1 ≤ rest.length - (idx + 4) := by
      have := startsWith_length hn
      simpa using this
    simp [hn, sliceFrom, hl1]
  · by_cases hrn : startsWith ['\r', '\n'] (rest.drop (idx + 4)) = true
    · have hl2 : 2 ≤ rest.length - (idx + 4) := by
        have := startsWith_length hrn
        simpa using this
      simp [hn, hrn, sliceFrom, hl2]
    · simp [hn, hrn]

/-- Claim C9: `split_frontmatter` is total: every bounds-checked slice the
Rust code takes succeeds, so `split_frontmatter_checked` — the same
computation with Rust's panicking slices made explicit — returns `some`
of the pair `split_frontmatter` computes, on every input.  The result is
a function of the input text alone. -/
theorem split_frontmatter_total_in_bounds (input : List Char) :
    split_frontmatter_checked input = some (split_frontmatter input) := by
  unfold split_frontmatter_checked split_frontmatter
  by_cases hcond : (!startsWith openLf input && !startsWith openCrLf input) = true
  · rw [if_pos hcond, if_pos hcond]
  · rw [if_neg hcond, if_neg hcond]
    simp only []
    by_cases hcr : startsWith openCrLf input = true
    · have h5 : 5 ≤ input.length := by
        have := startsWith_length hcr
        simpa [openCrLf] using this
      have hslice : sliceFrom input 5 = some (input.drop 5) := by
        simp [sliceFrom, h5]
      rw [if_pos hcr, if_pos hcr, hslice]
      simp only [Option.bind_eq_bind, Option.some_bind]
      cases hf : findSub closeMark (input.drop 5) with
      | none => rfl
      | some idx => exact checked_found_closer (input.drop 5) idx hf
    · have hlf : startsWith openLf input = true :=
        (opener_cases hcond).resolve_right hcr
      have h4 : 4 ≤ input.length := by
        have := startsWith_length hlf
        simpa [openLf] using this
      have hslice : sliceFrom input 4 = some (input.drop 4) := by
        simp [sliceFrom, h4]
      rw [if_neg hcr, if_neg hcr, hslice]
      simp only [Option.bind_eq_bind, Option.some_bind]
      cases hf : findSub closeMark (input.drop 4) with
      | none => rfl
      | some idx => exact checked_found_closer (input.drop 4) idx hf

/-- Claim C10: The body `split_frontmatter` returns is a contiguous suffix
of the input, and the frontmatter it returns is a contiguous substring of
the input preceding that suffix: the input decomposes as
`a ++ frontmatter ++ b ++ body`.  In particular no output text is absent
from the input. -/
theorem split_frontmatter_substructure (input : List Char) :
    ∃ a b, input = a ++ (split_frontmatter input).1
        ++ (b ++ (split_frontmatter input).2) := by
  by_cases hcond : (!startsWith openLf input && !startsWith openCrLf input) = true
  · refine ⟨[], [], ?_⟩
    simp [split_frontmatter, hcond]
  · by_cases hcr : startsWith openCrLf input = true
    · obtain ⟨rest, hin⟩ := (startsWith_iff _ _).mp hcr
      subst hin
      have hcr' : startsWith openCrLf (openCrLf ++ rest) = true :=
        startsWith_self_append _ _
      have hdrop5 : (openCrLf ++ rest).drop 5 = rest := rfl
      cases hf : findSub closeMark rest with
      | none =>
        refine ⟨[], [], ?_⟩
        simp [split_frontmatter, hcr', hdrop5, hf]
      | some idx =>
        have hsplit : split_frontmatter (openCrLf ++ rest)
            = (rest.take idx, stripLeadingNewline (rest.drop (idx + 4))) := by
          simp [split_frontmatter, hcr', hdrop5, hf]
        obtain ⟨pre, hpre⟩ := stripLeadingNewline_decomp (rest.drop (idx + 4))
        refine ⟨openCrLf, closeMark ++ pre, ?_⟩
        rw [hsplit]
        have hdec := findSub_decomp hf
        set s := stripLeadingNewline (rest.drop (idx + 4)) with hs
        rw [hpre] at hdec
        conv_lhs => rw [hdec]
        simp [List.append_assoc]
    · have hlf : startsWith openLf input = true :=
        (opener_cases hcond).resolve_right hcr
      obtain ⟨rest, hin⟩ := (startsWith_iff _ _).mp hlf
      subst hin
      have hlf' : startsWith openLf (openLf ++ rest) = true :=
        startsWith_self_append _ _
      have hcrf := startsWith_openCrLf_of_openLf rest
      have hdrop4 : (openLf ++ rest).drop 4 = rest := rfl
      cases hf : findSub closeMark rest with
      | none =>
        refine ⟨[], [], ?_⟩
        simp [split_frontmatter, hlf', hcrf, hdrop4, hf]
      | some idx =>
        have hsplit : split_frontmatter (openLf ++ rest)
            = (rest.take idx, stripLeadingNewline (rest.drop (idx + 4))) := by
          simp [split_frontmatter, hlf', hcrf, hdrop4, hf]
        obtain ⟨pre, hpre⟩ := stripLeadingNewline_decomp (rest.drop (idx + 4))
        refine ⟨openLf, closeMark ++ pre, ?_⟩
        rw [hsplit]
        have hdec := findSub_decomp hf
        set s := stripLeadingNewline (rest.drop (idx + 4)) with hs
        rw [hpre] at hdec
        conv_lhs => rw [hdec]
        simp [List.append_assoc]

/-- Witness for C1 amended, at three concrete manifests. -/
theorem version_flag_output_spec_witness :
    version_output (Json.obj [("version", Json.str "0.1.0")]) = "0.1.0" ++ "\n"
    ∧ version_output (Json.obj [("version", Json.num 3)]) = "unknown" ++ "\n"
    ∧ version_output (Json.obj []) = "" :=
  ⟨version_flag_output_spec.1 _ "0.1.0" rfl,
   version_flag_output_spec.2.1 _ (Json.num 3) rfl rfl,
   version_flag_output_spec.2.2 _ rfl⟩
